import Mathlib

/-!
# Verification of the `@lumjs/web-service` method-call pipeline

A shallow embedding of the request-construction pipeline of the
`supernovus/lum.web-service.js` repository, together with theorems about it.

The embedded source functions are:

* `src/lib/defs.js` — the `MIME` constants and the `STANDARD_HTTP` verb table;
* `src/lib/utils.js` — `getMimeType` (content sniffing);
* `src/lib/methodcall.js` — `parseURL`, `buildHeaders`, `setupBody`,
  `makeRequest`, the query-composition loop inside `makeRequest`, the
  auto-decode dispatch inside `send`, and `setWS`.

JavaScript values appearing in argument bags are modelled by the inductive
type `JVal`; JavaScript objects are modelled as association lists that keep
their keys in insertion order (the enumeration order of a plain JS object
with non-integer string keys).  Mutation of a caller-supplied bag (deleting
used placeholder keys) is modelled by explicit state passing: functions that
mutate the bag return the updated bag alongside their result.  Thrown
exceptions are modelled with `Except`.
-/

namespace LumWebService

/-! ## MIME constants (src/lib/defs.js, `MIME`) -/

def MIME_FORM : String := "multipart/form-data"

def MIME_JSON : String := "application/json"

def MIME_XML : String := "application/xml"

def MIME_HTML : String := "text/html"

def MIME_XHTML : String := "application/xhtml+xml"

def MIME_TEXT : String := "text/plain"

def MIME_BIN : String := "application/octet-stream"

def MIME_URL : String := "application/x-www-form-urlencoded"

/-! ## HTTP verb rules (src/lib/defs.js, `STANDARD_HTTP`) -/

/-- An HTTP method rule (`HttpRules` typedef in src/lib/defs.js).
`requestBody`/`responseBody` are tri-state: `some true` = mandatory,
`some false` = forbidden, `none` = optional (JS `null`). -/
structure HttpRule where
  requestBody : Option Bool
  responseBody : Option Bool
  safe : Bool
  idempotent : Bool
  cacheable : Bool
deriving DecidableEq, Repr

/-- The `STANDARD_HTTP` table from src/lib/defs.js lines 61-119,
as a lookup from the (uppercase) verb name. -/
def STANDARD_HTTP : String → Option HttpRule
  | "GET" => some ⟨some false, some true, true, true, true⟩
  | "HEAD" => some ⟨some false, some false, true, true, true⟩
  | "POST" => some ⟨some true, some true, false, false, false⟩
  | "PUT" => some ⟨some true, none, false, true, false⟩
  | "PATCH" => some ⟨some true, none, false, false, false⟩
  | "DELETE" => some ⟨none, none, false, true, false⟩
  | "OPTIONS" => some ⟨none, none, true, true, false⟩
  | _ => none

/-! ## JavaScript values and argument bags -/

/-- A JavaScript value as seen by this library.  Plain data is represented
structurally; the host-object classes that `getMimeType` (src/lib/utils.js)
distinguishes with `instanceof` checks are represented by dedicated tags.
`headersInst` stands for a `Headers` instance (entries already normalized
to lowercase names).  `element` records whether `ownerDocument` is an
`XMLDocument`. -/
inductive JVal where
  | vnull
  | vbool (b : Bool)
  | vnum (n : Int)
  | vstr (s : String)
  | varr (elems : List JVal)
  | vobj (fields : List (String × JVal))
  | headersInst (entries : List (String × String))
  | urlSearchParams
  | formData
  | blob
  | readableStream
  | arrayBufferView
  | xmlDocument
  | htmlDocument
  | element (ownerIsXml : Bool)
deriving Repr

/-- `core.types.isObj`: `typeof v === 'object' && v !== null`.
Arrays and all host objects are objects. -/
def isObj : JVal → Bool
  | .vnull => false
  | .vbool _ => false
  | .vnum _ => false
  | .vstr _ => false
  | _ => true

/-- `Array.isArray`. -/
def isArr : JVal → Bool
  | .varr _ => true
  | _ => false

/-- `v === null`. -/
def isNullV : JVal → Bool
  | .vnull => true
  | _ => false

mutual

/-- JavaScript string coercion (`String(v)`) for the values this library
passes into URL substitution and query parameters. -/
def jsToString : JVal → String
  | .vnull => "null"
  | .vbool b => if b then "true" else "false"
  | .vnum n => toString n
  | .vstr s => s
  | .varr es => String.intercalate "," (jsToStringList es)
  | .vobj _ => "[object Object]"
  | .headersInst _ => "[object Headers]"
  | .urlSearchParams => ""
  | .formData => "[object FormData]"
  | .blob => "[object Blob]"
  | .readableStream => "[object ReadableStream]"
  | .arrayBufferView => "[object Uint8Array]"
  | .xmlDocument => "[object XMLDocument]"
  | .htmlDocument => "[object HTMLDocument]"
  | .element _ => "[object Element]"

/-- String coercion of each element of a JS array. -/
def jsToStringList : List JVal → List String
  | [] => []
  | v :: rest => jsToString v :: jsToStringList rest

end

/-! ### String primitives

Kernel-computable models of the JavaScript string operations the library
uses (`trim`, `startsWith`, `endsWith`, `toLowerCase`), defined on the
character list of the string. -/

/-- ASCII whitespace, the common cases of the JS `\s` class. -/
def isWsChar (c : Char) : Bool :=
  c = ' ' || c = '\t' || c = '\n' || c = '\r' || c = '\x0b' || c = '\x0c'

/-- Drop leading whitespace characters. -/
def dropLeadingWs : List Char → List Char
  | [] => []
  | c :: rest => if isWsChar c then dropLeadingWs rest else c :: rest

/-- `String.prototype.trim`. -/
def strTrim (s : String) : String :=
  ⟨(dropLeadingWs (dropLeadingWs s.data).reverse).reverse⟩

/-- `String.prototype.startsWith`. -/
def strStartsWith (s p : String) : Bool :=
  List.isPrefixOf p.data s.data

/-- `String.prototype.endsWith`. -/
def strEndsWith (s p : String) : Bool :=
  List.isSuffixOf p.data s.data

/-- ASCII lower-casing of one character. -/
def charLower (c : Char) : Char :=
  if 'A' ≤ c ∧ c ≤ 'Z' then Char.ofNat (c.toNat + 32) else c

/-- `String.prototype.toLowerCase` (ASCII). -/
def strToLower (s : String) : String :=
  ⟨s.data.map charLower⟩

/-- An argument bag: a plain JS object, keys in insertion order. -/
abbrev Bag := List (String × JVal)

/-- Property lookup on a bag (`data[key]`); `none` models `undefined`. -/
def bagGet : Bag → String → Option JVal
  | [], _ => none
  | (k, v) :: rest, key => if k = key then some v else bagGet rest key

/-- Property deletion on a bag (`delete data[key]`). -/
def bagDelete : Bag → String → Bag
  | [], _ => []
  | (k, v) :: rest, key =>
    if k = key then bagDelete rest key else (k, v) :: bagDelete rest key

/-! ## Content sniffing (src/lib/utils.js, `getMimeType`) -/

/-- Errors raised by the embedded pipeline. `missingParams` carries the
`missing` list that src/lib/methodcall.js `parseURL` reports
(`console.error({missing, ...})`) when it throws "Missing URL parameters". -/
inductive MCError where
  | unknownMethod (meth : String)
  | missingParams (names : List String)
  | bodyForbidden (meth : String)
  | invalidData (msg : String)
deriving DecidableEq, Repr

/-- The `DOCTYPE_HTML` regex test from src/lib/utils.js line 12:
`/^<!DOCTYPE html/i.test(str)`, a case-insensitive prefix check. -/
def startsWithDoctypeHTML (s : String) : Bool :=
  strStartsWith (strToLower s) "<!doctype html"

/-- `getMimeType(data, jsonObjects)` from src/lib/utils.js lines 52-123.
String payloads are sniffed by shape; host objects by tag in the same order
as the source's `instanceof` chain; non-string non-objects and (when
`jsonObjects` is off) unrecognized objects raise a `TypeError`. -/
def getMimeType (data : JVal) (jsonObjects : Bool) : Except MCError String :=
  match data with
  | .vstr s =>
    let str := strTrim s
    if (strStartsWith str "\x7b" && strEndsWith str "\x7d")
        || (strStartsWith str "[" && strEndsWith str "]") then
      .ok MIME_JSON
    else if strStartsWith str "<" && strEndsWith str ">" then
      .ok (if startsWithDoctypeHTML str then MIME_HTML else MIME_XML)
    else
      .ok MIME_TEXT
  | .vnull => .error (.invalidData "Invalid data type")
  | .vbool _ => .error (.invalidData "Invalid data type")
  | .vnum _ => .error (.invalidData "Invalid data type")
  | .urlSearchParams => .ok MIME_URL
  | .formData => .ok MIME_FORM
  | .blob => .ok MIME_BIN
  | .readableStream => .ok MIME_BIN
  | .arrayBufferView => .ok MIME_BIN
  | .xmlDocument => .ok MIME_XML
  | .htmlDocument => .ok MIME_HTML
  | .element ownerIsXml => .ok (if ownerIsXml then MIME_XML else MIME_HTML)
  | _ =>
    if jsonObjects then .ok MIME_JSON
    else .error (.invalidData "Unsupported data object")

/-! ## URL placeholder resolution (src/lib/methodcall.js, `parseURL`)

`parseURL` scans the full raw path with the placeholder rule's global
pattern (`rawPath.replaceAll(placeholder.pattern, cb)`), replacing each
match by the bag value of the captured name.  We represent the outcome of
that scan structurally: a path is the alternating sequence of literal text
between matches (`lit`) and pattern matches (`varPart raw name`, where
`raw` is the matched placeholder text such as `":docId"` and `name` the
captured parameter name).  A path with no `varPart` corresponds to
`getPlaceholders` finding no rule match and returning `null`. -/

/-- One piece of a method-call path, as cut up by the placeholder rule's
global pattern. -/
inductive PathPart where
  | lit (text : String)
  | varPart (raw : String) (name : String)
deriving DecidableEq, Repr

/-- The placeholder parameter names of a path, one entry per occurrence,
in scanning order. -/
def varNames : List PathPart → List String
  | [] => []
  | .lit _ :: rest => varNames rest
  | .varPart _ n :: rest => n :: varNames rest

/-- Does the placeholder pattern match anywhere in the path?
(`getPlaceholders` returns a rule exactly when it does.) -/
def hasVarPart : List PathPart → Bool
  | [] => false
  | .lit _ :: rest => hasVarPart rest
  | .varPart _ _ :: _ => true

/-- The raw path text (placeholders unexpanded), i.e. `this.fullPath`. -/
def rawPath : List PathPart → String
  | [] => ""
  | .lit s :: rest => s ++ rawPath rest
  | .varPart raw _ :: rest => raw ++ rawPath rest

/-- The `replaceAll` scan of `parseURL` (src/lib/methodcall.js lines
302-319): substitute each placeholder from the bag (deleting used keys when
`removeUsed`), record the name of every occurrence that found no value
(`data[param] === undefined`) and substitute `''` for it.  Returns the
substituted path, the `missing` list in scan order, and the final bag. -/
def scanParts : List PathPart → Bag → Bool → String × List String × Bag
  | [], bag, _ => ("", [], bag)
  | .lit s :: rest, bag, removeUsed =>
    let r := scanParts rest bag removeUsed
    (s ++ r.1, r.2.1, r.2.2)
  | .varPart _ n :: rest, bag, removeUsed =>
    match bagGet bag n with
    | some v =>
      let bag' := if removeUsed then bagDelete bag n else bag
      let r := scanParts rest bag' removeUsed
      (jsToString v ++ r.1, r.2.1, r.2.2)
    | none =>
      let r := scanParts rest bag removeUsed
      (r.1, n :: r.2.1, r.2.2)

/-- A resolved request URL.  We model only the path and the search
parameters (the base origin merely qualifies the URL). -/
structure URLModel where
  path : String
  search : List (String × String)
deriving DecidableEq, Repr

/-- `parseURL(data, removeUsed)` from src/lib/methodcall.js lines 289-328.
`data = none` models a non-object `data` argument.  When no placeholder
rule matches (`hasVarPart = false`) or `data` is not an object, the raw
path is used verbatim.  Otherwise the scan runs; if any name was missing
the call throws "Missing URL parameters" after reporting the `missing`
list (modelled by `MCError.missingParams`).  The possibly-mutated bag is
returned alongside, since the source mutates the caller's object in
place. -/
def parseURL (parts : List PathPart) (data : Option Bag) (removeUsed : Bool) :
    Except MCError URLModel × Option Bag :=
  match data with
  | none => (.ok ⟨rawPath parts, []⟩, none)
  | some bag =>
    if hasVarPart parts then
      let r := scanParts parts bag removeUsed
      if r.2.1.isEmpty then (.ok ⟨r.1, []⟩, some r.2.2)
      else (.error (.missingParams r.2.1), some r.2.2)
    else (.ok ⟨rawPath parts, []⟩, some bag)

/-! ## Headers (src/lib/methodcall.js, `buildHeaders`) -/

/-- A `Headers` instance: entries with names normalized to lowercase, as
the Fetch `Headers` class stores them. -/
abbrev HeadersModel := List (String × String)

/-- `headers.get(name)` (case-insensitive). -/
def hGet : HeadersModel → String → Option String
  | [], _ => none
  | (k, v) :: rest, key => if k = strToLower key then some v else hGet rest key

/-- `headers.set(name, value)`: replace the existing entry or append. -/
def hSet : HeadersModel → String → String → HeadersModel
  | [], key, val => [(strToLower key, val)]
  | (k, v) :: rest, key, val =>
    if k = strToLower key then (k, val) :: rest
    else (k, v) :: hSet rest key val

/-- `target[k] = v` on a plain object: update in place or append. -/
def setKV : List (String × String) → String → String → List (String × String)
  | [], k, v => [(k, v)]
  | (k', v') :: rest, k, v =>
    if k' = k then (k, v) :: rest else (k', v') :: setKV rest k v

/-- `Object.assign(base, updates)` for one string-valued source. -/
def objAssign (base updates : List (String × String)) : List (String × String) :=
  updates.foldl (fun acc kv => setKV acc kv.1 kv.2) base

/-- `new Headers(obj)`: set every entry of the plain object. -/
def headersFromObj (entries : List (String × String)) : HeadersModel :=
  entries.foldl (fun acc kv => hSet acc kv.1 kv.2) []

/-- The `acceptType` option: a string, a boolean, or unset (JS `null`). -/
inductive AcceptOpt where
  | astr (s : String)
  | abool (b : Bool)
  | anull
deriving DecidableEq, Repr

/-- The `headers` argument accepted by `buildHeaders`/`setupBody`: an
actual `Headers` instance, a plain object, or nothing. -/
inductive HeadersArg where
  | inst (h : HeadersModel)
  | objArg (entries : List (String × String))
  | noArg
deriving DecidableEq, Repr

/-- The effective configuration of one `MethodCall`.  Option getters in the
source look an option up in `this.options`, then `this.ws._options`, then a
default (`getOption`); here each field holds the value that lookup resolves
to (with `none` for JS `null`/unset), except the nested `headers` option
groups which are kept per layer because `getNestedOptions` merges them
key-by-key. -/
structure MCConfig where
  http : String
  pathParts : List PathPart
  httpMethods : String → Option HttpRule
  contentType : Option String := none
  acceptType : AcceptOpt := .anull
  wsHeaders : List (String × String) := []
  callHeaders : List (String × String) := []
  jsonObjects : Bool := true
  removePlaceholdersFromData : Option Bool := none
  autoDecodeJSON : Bool := true
  autoDecodeXML : Bool := false
  autoDecodeHTML : Bool := false
  autoDecodeXHTML : Option Bool := none

/-- The `removePlaceholdersFromData` getter (src/lib/methodcall.js lines
441-444): `this.getOption('removePlaceholdersFromData', true)`. -/
def getRemovePlaceholdersFromData (cfg : MCConfig) : Bool :=
  cfg.removePlaceholdersFromData.getD true

/-- `buildHeaders(localHeaders)` from src/lib/methodcall.js lines 196-229.
A `Headers` instance is returned directly with no further modification.
Otherwise defaults derived from the `contentType`/`acceptType` options are
composed with the `headers` nested options (registry layer, call layer,
then the local override) and a new `Headers` is built. -/
def buildHeaders (cfg : MCConfig) (localHeaders : HeadersArg) : HeadersModel :=
  match localHeaders with
  | .inst h => h
  | other =>
    let ctype := cfg.contentType
    let atype : Option String :=
      match cfg.acceptType with
      | .astr s => some s
      | .abool true => ctype
      | .abool false => none
      | .anull => none
    let ctDefaults : List (String × String) :=
      match ctype with
      | some c => if strTrim c ≠ "" then [("Content-Type", c)] else []
      | none => []
    let atDefaults : List (String × String) :=
      match atype with
      | some a => if strTrim a ≠ "" then [("Accept", a)] else []
      | none => []
    let overrideEntries : List (String × String) :=
      match other with
      | .objArg es => es
      | _ => []
    let comp :=
      objAssign (objAssign (objAssign (ctDefaults ++ atDefaults)
        cfg.wsHeaders) cfg.callHeaders) overrideEntries
    headersFromObj comp

/-! ## Body setup (src/lib/methodcall.js, `setupBody`) -/

/-- The request body after `setupBody` processing.  Serialized forms are
kept symbolic: `jsonStringified v` is `JSON.stringify(v, ...)`,
`xmlSerialized v` is `new XMLSerializer().serializeToString(v)`,
`globalDocOuterHTML` is `document.documentElement.outerHTML` (the source
reads the global `document` in the `Document` branch), and
`elementOuterHTML` is `data.outerHTML`. -/
inductive SBody where
  | rawStr (s : String)
  | rawVal (v : JVal)
  | jsonStringified (v : JVal)
  | xmlSerialized (v : JVal)
  | globalDocOuterHTML
  | elementOuterHTML (ownerIsXml : Bool)
deriving Repr

/-- The serialization tail of `setupBody` (src/lib/methodcall.js lines
583-612): object data is serialized according to the resolved
`Content-Type`; strings and everything else pass through as-is. -/
def setupBodySerialize (data : JVal) (contentType : Option String)
    (headers : HeadersModel) : Except MCError (SBody × HeadersModel) :=
  if isObj data then
    if contentType = some MIME_JSON then .ok (.jsonStringified data, headers)
    else if contentType = some MIME_XML then .ok (.xmlSerialized data, headers)
    else if contentType = some MIME_HTML ∨ contentType = some MIME_XHTML then
      match data with
      | .xmlDocument => .ok (.globalDocOuterHTML, headers)
      | .htmlDocument => .ok (.globalDocOuterHTML, headers)
      | .element ownerIsXml => .ok (.elementOuterHTML ownerIsXml, headers)
      | _ => .error (.invalidData "Invalid HTML Document or Element")
    else .ok (.rawVal data, headers)
  else
    match data with
    | .vstr s => .ok (.rawStr s, headers)
    | v => .ok (.rawVal v, headers)

/-- `setupBody(data, headers)` from src/lib/methodcall.js lines 566-613.
Builds the headers, and when they carry no `Content-Type` and the data is
not nil, sniffs one with `getMimeType` (propagating its `TypeError`) and
sets it on the headers; then serializes the data. -/
def setupBody (cfg : MCConfig) (data : JVal) (headersArg : HeadersArg) :
    Except MCError (SBody × HeadersModel) :=
  let headers := buildHeaders cfg headersArg
  let ct0 := hGet headers "Content-Type"
  if ct0.isNone && !(isNullV data) then
    match getMimeType data cfg.jsonObjects with
    | .error e => .error e
    | .ok t =>
      let headers' :=
        if strTrim t ≠ "" then hSet headers "Content-Type" t else headers
      setupBodySerialize data (some t) headers'
  else
    setupBodySerialize data ct0 headers

/-! ## Query composition (src/lib/methodcall.js lines 709-731) -/

/-- `URLSearchParams.append`. -/
def qsAppend (ps : List (String × String)) (k v : String) :
    List (String × String) :=
  ps ++ [(k, v)]

/-- `URLSearchParams.delete`: remove every entry with the key. -/
def qsDelete : List (String × String) → String → List (String × String)
  | [], _ => []
  | (k', v') :: rest, k =>
    if k' = k then qsDelete rest k else (k', v') :: qsDelete rest k

/-- `URLSearchParams.set`: replace the first entry with the key (dropping
any later duplicates) or append. -/
def qsSet : List (String × String) → String → String → List (String × String)
  | [], k, v => [(k, v)]
  | (k', v') :: rest, k, v =>
    if k' = k then (k, v) :: qsDelete rest k
    else (k', v') :: qsSet rest k v

/-- One iteration of the query loop in `makeRequest`: an array value
appends one entry per element, `null` deletes the key, anything else sets
a single (string-coerced) value. -/
def applyQueryItem (ps : List (String × String)) (k : String) (v : JVal) :
    List (String × String) :=
  match v with
  | .varr es => es.foldl (fun acc e => qsAppend acc k (jsToString e)) ps
  | .vnull => qsDelete ps k
  | other => qsSet ps k (jsToString other)

/-- The whole `for (const key in queryData)` loop of `makeRequest`
(src/lib/methodcall.js lines 709-731), run over the query source's keys in
enumeration order against the URL's search params. -/
def applyQuery (ps : List (String × String)) (src : Bag) :
    List (String × String) :=
  src.foldl (fun acc kv => applyQueryItem acc kv.1 kv.2) ps

/-! ## Request construction (src/lib/methodcall.js, `makeRequest`) -/

/-- The outcome of `makeRequest`: the `Request` constructor arguments.
`bodyData` records the value chosen as the `bodyData` local of the source
(the input to `setupBody`); `body` is the processed `reqOpts.body`. -/
structure BuiltRequest where
  url : URLModel
  method : String
  headers : HeadersModel
  bodyData : Option JVal
  body : Option SBody
deriving Repr

/-- Interpret an `options.headers` bag value as `buildHeaders` input:
a `Headers` instance is used directly; a plain object's entries become the
override group (values string-coerced); anything else contributes
nothing. -/
def toHeadersArg : Option JVal → HeadersArg
  | some (.headersInst h) => .inst h
  | some (.vobj fields) => .objArg (fields.map fun kv => (kv.1, jsToString kv.2))
  | _ => .noArg

/-- Interpret a `vars` value as the `data` argument of `parseURL`:
`parseURL` only uses object data (`isObj` check); a plain object is the
bag, another object kind exposes none of the looked-up names (modelled as
an empty bag), and a non-object is ignored. -/
def asBag : Option JVal → Option Bag
  | some (.vobj fields) => some fields
  | some v => if isObj v then some [] else none
  | none => none

/-- The `urlData` choice of `makeRequest`: `options.vars ?? options`
selects the whole bag exactly when `vars` is absent or null (`??` fires
only on `undefined`/`null`). -/
def useOptionsAsVarsOf (options : Bag) : Bool :=
  match bagGet options "vars" with
  | none => true
  | some .vnull => true
  | some _ => false

/-- Truthiness of `methOpts.requestBody`: only `true` is truthy
(`false` and `null` are both falsy). -/
def reqBodyTruthyOf (rule : HttpRule) : Bool :=
  match rule.requestBody with
  | some true => true
  | _ => false

/-- The explicit body supplied at call time: `notNil(options.body)` means
present and non-null. -/
def explicitBodyOf (options : Bag) : Option JVal :=
  match bagGet options "body" with
  | some v => if isNullV v then none else some v
  | none => none

/-- The explicit query supplied at call time: `isObj(options.query)`.
A plain object contributes its fields; another object kind passes the
`isObj` check but enumerates no own string-keyed properties. -/
def explicitQueryOf (options : Bag) : Option Bag :=
  match bagGet options "query" with
  | some (.vobj fields) => some fields
  | some v => if isObj v then some [] else none
  | none => none

/-- `makeRequest(options)` from src/lib/methodcall.js lines 668-745.

The decision logic, in source order:
* unknown verb ⇒ throw;
* `headers := buildHeaders(options.headers)`;
* `urlData := options.vars ?? options` — the whole bag is the vars source
  when `vars` is absent or null;
* `bodyData := notNil(options.body) ? options.body
  : (methOpts.requestBody ? options : null)` — the bag itself implicitly
  becomes the body only when the verb rule makes a body mandatory;
* `queryData := isObj(options.query) ? options.query
  : (methOpts.requestBody ? null : options)`;
* throw `RangeError` when the rule forbids a body and `bodyData` is not nil;
* `url := parseURL(urlData, urlData === options)` — used placeholder keys
  are stripped from the bag exactly when the bag itself is the vars source;
* a body, when present, runs through `setupBody` (which may update the
  headers); the query source, when present, is applied to the URL's search
  params.

`options` is mutated in place by `parseURL`; the updated bag is returned
as the second component. -/
def makeRequest (cfg : MCConfig) (options : Bag) :
    Except MCError BuiltRequest × Bag :=
  match cfg.httpMethods cfg.http with
  | none => (.error (.unknownMethod cfg.http), options)
  | some methOpts =>
    let headers := buildHeaders cfg (toHeadersArg (bagGet options "headers"))
    let useOptionsAsVars := useOptionsAsVarsOf options
    let reqBodyTruthy := reqBodyTruthyOf methOpts
    let explicitBody := explicitBodyOf options
    let explicitQuery := explicitQueryOf options
    if methOpts.requestBody = some false
        && (explicitBody.isSome || reqBodyTruthy) then
      (.error (.bodyForbidden cfg.http), options)
    else
      let pres :=
        if useOptionsAsVars then parseURL cfg.pathParts (some options) true
        else parseURL cfg.pathParts (asBag (bagGet options "vars")) false
      let options' : Bag :=
        if useOptionsAsVars then (pres.2.getD options) else options
      match pres.1 with
      | .error e => (.error e, options')
      | .ok url =>
        let bodyData : Option JVal :=
          match explicitBody with
          | some v => some v
          | none => if reqBodyTruthy then some (.vobj options') else none
        let bodyRes : Except MCError (Option SBody × HeadersModel) :=
          match bodyData with
          | some d =>
            match setupBody cfg d (.inst headers) with
            | .error e => .error e
            | .ok r => .ok (some r.1, r.2)
          | none => .ok (none, headers)
        match bodyRes with
        | .error e => (.error e, options')
        | .ok br =>
          let queryBag : Option Bag :=
            match explicitQuery with
            | some q => some q
            | none => if reqBodyTruthy then none else some options'
          let search :=
            match queryBag with
            | some qb => applyQuery url.search qb
            | none => url.search
          (.ok { url := { url with search := search }, method := cfg.http,
                 headers := br.2, bodyData := bodyData, body := br.1 },
           options')

/-! ## Response auto-decoding (src/lib/methodcall.js, `send`) -/

/-- What `send` resolves a response to. -/
inductive DecodeKind where
  | json
  | xml
  | html
  | rawResponse
deriving DecidableEq, Repr

/-- The `doXHTML` resolution in `send` (src/lib/methodcall.js lines
774-786): only consulted when XML or HTML decoding is on; a non-boolean
`autoDecodeXHTML` option (`none` here) falls back to `doHTML`; otherwise
`doXHTML` is `false`. -/
def resolveDoXHTML (doXML doHTML : Bool) (xhtmlOpt : Option Bool) : Bool :=
  if doXML || doHTML then
    match xhtmlOpt with
    | some b => b
    | none => doHTML
  else false

/-- The response classification of `send` (src/lib/methodcall.js lines
788-834): match the response `Content-Type` against the enabled
auto-decode toggles, in source order; anything unmatched (including a
missing `Content-Type`) resolves to the raw `Response`. -/
def sendDecode (doJSON doXML doHTML : Bool) (xhtmlOpt : Option Bool)
    (ctype : Option String) : DecodeKind :=
  let doXHTML := resolveDoXHTML doXML doHTML xhtmlOpt
  match ctype with
  | none => .rawResponse
  | some ct =>
    if doJSON ∧ ct = MIME_JSON then .json
    else if doXML ∧ ct = MIME_XML then .xml
    else if doHTML ∧ ct = MIME_HTML then .html
    else if doXHTML ∧ ct = MIME_XHTML then
      (if doHTML then .html else .xml)
    else .rawResponse

/-- The four auto-decode rules exactly as the specification states them
(§4.6), with the XHTML toggle defaulting to the HTML toggle when unset.
This is the spec-side matching predicate that `sendDecode` is compared
against. -/
def specRuleMatches (doJSON doXML doHTML : Bool) (xhtmlOpt : Option Bool)
    (ctype : Option String) : Bool :=
  match ctype with
  | none => false
  | some ct =>
    (doJSON && decide (ct = MIME_JSON)) || (doXML && decide (ct = MIME_XML))
      || (doHTML && decide (ct = MIME_HTML))
      || (xhtmlOpt.getD doHTML && decide (ct = MIME_XHTML))

/-! ## Registration (src/lib/methodcall.js, `setWS`) -/

/-- The argument passed to `setWS`: either an actual `Webservice` instance
(identified by its object identity) or some non-`Webservice` value. -/
inductive WSArg where
  | ws (id : Nat)
  | notWS
deriving DecidableEq, Repr

/-- The mutable registration state of a `MethodCall`: its `ws` property
(`null` until `setWS` is called, identified by the owning instance). -/
structure MCState where
  ws : Option Nat
deriving DecidableEq, Repr

/-- `setWS(ws)` from src/lib/methodcall.js lines 90-98: throw `TypeError`
on a non-`Webservice` argument, otherwise assign `this.ws = ws`
(followed by `makeObservable`, which does not touch `ws`). -/
def setWS (st : MCState) (arg : WSArg) : Except String MCState :=
  match arg with
  | .notWS => .error "Invalid Webservice instance"
  | .ws i =>
    let _ := st
    .ok { ws := some i }

/-! ## Concrete method-call configurations used by witnesses -/

/-- A `GET /docs/:docId` method call with the standard verb table and
default options. -/
def cfgDocsGET : MCConfig :=
  { http := "GET",
    pathParts := [.lit "/docs/", .varPart ":docId" "docId"],
    httpMethods := STANDARD_HTTP }

/-- The same method call with the `removePlaceholdersFromData` option
explicitly set to `false`. -/
def cfgDocsGETNoStrip : MCConfig :=
  { cfgDocsGET with removePlaceholdersFromData := some false }

/-- Deleting every name of a list from a bag, in order. -/
def bagDeleteAll (bag : Bag) (names : List String) : Bag :=
  names.foldl bagDelete bag

/-! ## Helper lemmas about bags and the placeholder scan -/

theorem bagGet_bagDelete_self (bag : Bag) (k : String) :
    bagGet (bagDelete bag k) k = none := by
  induction bag with
  | nil => rfl
  | cons p rest ih =>
    obtain ⟨k', v⟩ := p
    by_cases h : k' = k
    · simp [bagDelete, h, ih]
    · simp [bagDelete, bagGet, h, ih]

theorem bagGet_bagDelete_ne (bag : Bag) (k n : String) (h : k ≠ n) :
    bagGet (bagDelete bag n) k = bagGet bag k := by
  induction bag with
  | nil => rfl
  | cons p rest ih =>
    obtain ⟨k', v⟩ := p
    by_cases h' : k' = n
    · subst h'
      have hnk : ¬ (k' = k) := fun hc => h hc.symm
      simp [bagDelete, bagGet, hnk, ih]
    · by_cases h'' : k' = k
      · subst h''
        simp [bagDelete, bagGet, h']
      · simp [bagDelete, bagGet, h', h'', ih]

theorem bagDelete_absent (bag : Bag) (n : String)
    (h : bagGet bag n = none) : bagDelete bag n = bag := by
  induction bag with
  | nil => rfl
  | cons p rest ih =>
    obtain ⟨k', v⟩ := p
    by_cases h' : k' = n
    · simp [bagGet, h'] at h
    · simp [bagGet, h'] at h
      simp [bagDelete, h', ih h]

theorem bagGet_bagDeleteAll_none (bag : Bag) (names : List String)
    (n : String) (h : bagGet bag n = none) :
    bagGet (bagDeleteAll bag names) n = none := by
  induction names generalizing bag with
  | nil => exact h
  | cons m rest ih =>
    by_cases hm : n = m
    · subst hm
      exact ih _ (by rw [bagDelete_absent bag n h]; exact h)
    · exact ih _ (by rw [bagGet_bagDelete_ne bag n m hm]; exact h)

theorem bagGet_bagDeleteAll_mem (bag : Bag) (names : List String)
    (n : String) (h : n ∈ names) :
    bagGet (bagDeleteAll bag names) n = none := by
  induction names generalizing bag with
  | nil => cases h
  | cons m rest ih =>
    by_cases hm : n = m
    · subst hm
      exact bagGet_bagDeleteAll_none _ rest n (bagGet_bagDelete_self bag n)
    · exact ih _ ((List.mem_cons.mp h).resolve_left hm)

theorem bagGet_bagDeleteAll_not_mem (bag : Bag) (names : List String)
    (n : String) (h : n ∉ names) :
    bagGet (bagDeleteAll bag names) n = bagGet bag n := by
  induction names generalizing bag with
  | nil => rfl
  | cons m rest ih =>
    have h1 : n ≠ m := fun hc => h (hc ▸ List.mem_cons_self m rest)
    have h2 : n ∉ rest := fun hc => h (List.mem_cons_of_mem m hc)
    rw [bagDeleteAll, List.foldl_cons, ← bagDeleteAll, ih _ h2,
      bagGet_bagDelete_ne bag n m h1]

theorem scanParts_bag_false (parts : List PathPart) (bag : Bag) :
    (scanParts parts bag false).2.2 = bag := by
  induction parts generalizing bag with
  | nil => rfl
  | cons p rest ih =>
    cases p with
    | lit s => simpa [scanParts] using ih bag
    | varPart raw n =>
      cases h : bagGet bag n <;> simp [scanParts, h, ih bag]

theorem scanParts_missing_false (parts : List PathPart) (bag : Bag) :
    (scanParts parts bag false).2.1
      = (varNames parts).filter (fun n => (bagGet bag n).isNone) := by
  induction parts generalizing bag with
  | nil => rfl
  | cons p rest ih =>
    cases p with
    | lit s => simpa [scanParts, varNames] using ih bag
    | varPart raw n =>
      cases h : bagGet bag n <;>
        simp [scanParts, varNames, h, List.filter_cons, ih bag]

theorem scanParts_bag_true (parts : List PathPart) (bag : Bag) :
    (scanParts parts bag true).2.2 = bagDeleteAll bag (varNames parts) := by
  induction parts generalizing bag with
  | nil => rfl
  | cons p rest ih =>
    cases p with
    | lit s => simpa [scanParts, varNames] using ih bag
    | varPart raw n =>
      cases h : bagGet bag n with
      | some v =>
        simp [scanParts, h, varNames, bagDeleteAll, List.foldl_cons]
        exact ih (bagDelete bag n)
      | none =>
        simp [scanParts, h, varNames, bagDeleteAll, List.foldl_cons,
          bagDelete_absent bag n h]
        exact ih bag

theorem scanParts_missing_mem_true (parts : List PathPart) (bag : Bag)
    (n : String) (hmem : n ∈ varNames parts) (habs : bagGet bag n = none) :
    n ∈ (scanParts parts bag true).2.1 := by
  induction parts generalizing bag with
  | nil => cases hmem
  | cons p rest ih =>
    cases p with
    | lit s =>
      simp [varNames] at hmem
      simpa [scanParts] using ih bag hmem habs
    | varPart raw m =>
      simp [varNames] at hmem
      cases h : bagGet bag m with
      | some v =>
        have hnm : n ≠ m := by
          rintro rfl; rw [habs] at h; cases h
        have hmem' : n ∈ varNames rest := hmem.resolve_left hnm
        have habs' : bagGet (bagDelete bag m) n = none := by
          rw [bagGet_bagDelete_ne bag n m hnm]; exact habs
        simpa [scanParts, h] using ih (bagDelete bag m) hmem' habs'
      | none =>
        rcases hmem with hmem | hmem
        · subst hmem; simp [scanParts, h]
        · simpa [scanParts, h] using Or.inr (ih bag hmem habs)

theorem parseURL_error_is_missing (parts : List PathPart) (data : Option Bag)
    (ru : Bool) (e : MCError) (h : (parseURL parts data ru).1 = .error e) :
    ∃ ns, e = .missingParams ns := by
  rcases data with _ | bag
  · simp [parseURL] at h
  · simp only [parseURL] at h
    split_ifs at h
    simp_all
    exact ⟨_, h.symm⟩

theorem parseURL_ok_search_nil (parts : List PathPart) (data : Option Bag)
    (ru : Bool) (url : URLModel)
    (h : (parseURL parts data ru).1 = .ok url) : url.search = [] := by
  rcases data with _ | bag
  · simp only [parseURL] at h
    injection h with h'
    rw [← h']
  · simp only [parseURL] at h
    split_ifs at h
    all_goals
      injection h with h'
      rw [← h']

theorem parseURL_snd_some (parts : List PathPart) (bag : Bag) (ru : Bool) :
    ∃ b, (parseURL parts (some bag) ru).2 = some b := by
  simp only [parseURL]
  split_ifs <;> exact ⟨_, rfl⟩

theorem hasVarPart_iff_varNames (parts : List PathPart) :
    hasVarPart parts = true ↔ varNames parts ≠ [] := by
  induction parts with
  | nil => simp [hasVarPart, varNames]
  | cons p rest ih =>
    cases p with
    | lit s => simpa [hasVarPart, varNames] using ih
    | varPart raw n => simp [hasVarPart, varNames]

/-! ## C2 — missing URL parameters -/

/-- C2 (counterexample): the claim "the reported missing-name list is
exactly the set of unresolved placeholder names, each listed once" fails
when a placeholder name occurs more than once in the path.  For the path
`":id/x/:id"` and an empty bag, `parseURL` reports `["id", "id"]` — the
unresolved name is listed once per occurrence, not once. -/
theorem parseURL_missing_list_duplicated :
    (parseURL [.varPart ":id" "id", .lit "/x/", .varPart ":id" "id"]
      (some []) false).1 = .error (.missingParams ["id", "id"])
    ∧ ¬ List.Nodup ["id", "id"] := by
  constructor
  · rfl
  · decide

/-- C2 (amended): for every argument bag that is missing at least one
placeholder name required by the path, `parseURL` (with used-key removal
off) fails with the missing-parameters error rather than producing a URL,
and the reported missing-name list is exactly the sequence of placeholder
occurrences whose names are absent from the bag, in scan order — one entry
per unresolved occurrence (so a repeated unresolved name is listed once
per occurrence); the bag is left untouched. -/
theorem parseURL_missing_reported_per_occurrence
    (parts : List PathPart) (bag : Bag)
    (hmiss : (varNames parts).filter (fun n => (bagGet bag n).isNone) ≠ []) :
    parseURL parts (some bag) false =
      (.error (.missingParams
        ((varNames parts).filter (fun n => (bagGet bag n).isNone))),
       some bag) := by
  have hvn : varNames parts ≠ [] := by
    intro h
    rw [h] at hmiss
    exact hmiss rfl
  have hvp : hasVarPart parts = true := (hasVarPart_iff_varNames parts).mpr hvn
  have hscan1 := scanParts_missing_false parts bag
  have hscan2 := scanParts_bag_false parts bag
  have hcond : ((varNames parts).filter
      (fun n => (bagGet bag n).isNone)).isEmpty = false := by
    simp [List.isEmpty_iff, hmiss]
  simp only [parseURL, hvp, if_true, hscan1, hscan2, hcond]
  simp

/-- C2 (witness for the amended theorem): for path `":docId"` and an empty
bag, `parseURL` reports exactly `["docId"]`. -/
theorem parseURL_missing_reported_per_occurrence_witness :
    parseURL [.varPart ":docId" "docId"] (some []) false =
      (.error (.missingParams ["docId"]), some []) := by
  have h := parseURL_missing_reported_per_occurrence
    [.varPart ":docId" "docId"] [] (by decide)
  simpa using h

/-! ## C10 — bag mutation before the missing-parameters error -/

/-- C10: when `parseURL` runs with `removeUsed = true` on a bag that
supplies some but not all of the path's placeholder names, the resolved
placeholder keys are deleted from the bag and the missing-parameters error
is then thrown with the bag left in that stripped state — the bag is not
restored on failure.  Precisely: the call fails, every placeholder name is
absent from the returned bag, every non-placeholder key is untouched, and
the returned bag differs from the input bag. -/
theorem parseURL_strips_resolved_keys_before_error
    (parts : List PathPart) (bag : Bag)
    (hmiss : ∃ n ∈ varNames parts, bagGet bag n = none)
    (hres : ∃ n ∈ varNames parts, (bagGet bag n).isSome) :
    ∃ ms final, parseURL parts (some bag) true =
        (.error (.missingParams ms), some final)
      ∧ (∀ n ∈ varNames parts, bagGet final n = none)
      ∧ (∀ k, k ∉ varNames parts → bagGet final k = bagGet bag k)
      ∧ final ≠ bag := by
  obtain ⟨n₀, hn₀mem, hn₀abs⟩ := hmiss
  obtain ⟨n₁, hn₁mem, hn₁res⟩ := hres
  have hvn : varNames parts ≠ [] := by
    intro h
    rw [h] at hn₀mem
    cases hn₀mem
  have hvp : hasVarPart parts = true := (hasVarPart_iff_varNames parts).mpr hvn
  have hscanbag := scanParts_bag_true parts bag
  have hmem := scanParts_missing_mem_true parts bag n₀ hn₀mem hn₀abs
  have hne : ¬ (scanParts parts bag true).2.1.isEmpty := by
    rw [List.isEmpty_iff]
    intro h
    rw [h] at hmem
    cases hmem
  refine ⟨(scanParts parts bag true).2.1, bagDeleteAll bag (varNames parts),
    ?_, ?_, ?_, ?_⟩
  · simp only [parseURL, hvp, if_true, hne, if_false, hscanbag]
    simp
  · intro n hn
    exact bagGet_bagDeleteAll_mem bag (varNames parts) n hn
  · intro k hk
    exact bagGet_bagDeleteAll_not_mem bag (varNames parts) k hk
  · intro hfin
    have h1 : bagGet (bagDeleteAll bag (varNames parts)) n₁ = none :=
      bagGet_bagDeleteAll_mem bag (varNames parts) n₁ hn₁mem
    rw [hfin] at h1
    rw [h1] at hn₁res
    cases hn₁res

/-- C10 (witness): path `"/a/:x/:y"` with bag `{x: "1"}` — the call fails
on the missing `y` while `x` has already been stripped. -/
theorem parseURL_strips_resolved_keys_before_error_witness :
    ∃ ms final,
      parseURL [.lit "/a/", .varPart ":x" "x", .varPart ":y" "y"]
          (some [("x", JVal.vstr "1")]) true =
        (.error (.missingParams ms), some final)
      ∧ (∀ n ∈ varNames [.lit "/a/", PathPart.varPart ":x" "x",
          PathPart.varPart ":y" "y"], bagGet final n = none)
      ∧ (∀ k, k ∉ varNames [.lit "/a/", PathPart.varPart ":x" "x",
          PathPart.varPart ":y" "y"] →
          bagGet final k = bagGet [("x", JVal.vstr "1")] k)
      ∧ final ≠ [("x", JVal.vstr "1")] :=
  parseURL_strips_resolved_keys_before_error
    [.lit "/a/", .varPart ":x" "x", .varPart ":y" "y"]
    [("x", JVal.vstr "1")]
    ⟨"y", by decide, rfl⟩
    ⟨"x", by decide, rfl⟩

/-! ## C4 — content sniffing -/

/-- C4 (counterexample): the claim says every structured payload other
than the binary-like containers and `URLSearchParams`/`FormData` yields
JSON when `jsonObjects` is enabled.  An `XMLDocument` is such a payload,
yet `getMimeType` classifies it as XML, not JSON. -/
theorem getMimeType_xmldocument_not_json :
    getMimeType JVal.xmlDocument true = .ok MIME_XML
    ∧ MIME_XML ≠ MIME_JSON := by
  exact ⟨rfl, by decide⟩

/-- C4 (amended): `getMimeType` classifies string payloads exactly as the
claim states (trimmed brace/bracket wrapping ⇒ JSON; `<...>` wrapping ⇒
HTML on an HTML-doctype prefix, else XML; anything else ⇒ plain text, with
the four spec examples); structured payloads: binary-like containers ⇒
octet-stream, `URLSearchParams`/`FormData` ⇒ their canonical MIME,
**DOM documents and elements ⇒ XML or HTML by document kind**, and only
the remaining objects ⇒ JSON when `jsonObjects` is enabled (default true)
and a type-detection error when it is disabled. -/
theorem getMimeType_characterization :
    (∀ s b, getMimeType (.vstr s) b =
      .ok (if (strStartsWith (strTrim s) "\x7b"
                && strEndsWith (strTrim s) "\x7d")
              || (strStartsWith (strTrim s) "["
                && strEndsWith (strTrim s) "]") then
             MIME_JSON
           else if strStartsWith (strTrim s) "<"
               && strEndsWith (strTrim s) ">" then
             (if startsWithDoctypeHTML (strTrim s) then MIME_HTML
              else MIME_XML)
           else MIME_TEXT))
    ∧ getMimeType (.vstr "\x7b\"a\":1\x7d") true = .ok MIME_JSON
    ∧ getMimeType (.vstr "<!DOCTYPE html><p>x</p>") true = .ok MIME_HTML
    ∧ getMimeType (.vstr "<a>1</a>") true = .ok MIME_XML
    ∧ getMimeType (.vstr "hello") true = .ok MIME_TEXT
    ∧ (∀ b, getMimeType .urlSearchParams b = .ok MIME_URL)
    ∧ (∀ b, getMimeType .formData b = .ok MIME_FORM)
    ∧ (∀ b, getMimeType .blob b = .ok MIME_BIN
        ∧ getMimeType .readableStream b = .ok MIME_BIN
        ∧ getMimeType .arrayBufferView b = .ok MIME_BIN)
    ∧ (∀ b, getMimeType .xmlDocument b = .ok MIME_XML
        ∧ getMimeType .htmlDocument b = .ok MIME_HTML)
    ∧ (∀ b oix, getMimeType (.element oix) b =
        .ok (if oix then MIME_XML else MIME_HTML))
    ∧ (∀ fs, getMimeType (.vobj fs) true = .ok MIME_JSON)
    ∧ (∀ es, getMimeType (.varr es) true = .ok MIME_JSON)
    ∧ (∀ fs, getMimeType (.vobj fs) false =
        .error (.invalidData "Unsupported data object")) := by
  refine ⟨fun s b => ?_, rfl, rfl, rfl, rfl,
    fun b => rfl, fun b => rfl, fun b => ⟨rfl, rfl, rfl⟩,
    fun b => ⟨rfl, rfl⟩, fun b oix => rfl,
    fun fs => rfl, fun es => rfl, fun fs => rfl⟩
  simp only [getMimeType]
  split_ifs <;> rfl

/-! ## C5 — response auto-decode dispatch -/

/-- If the `doXHTML` computed by `send` is true, then the XHTML toggle
with its unset-default (the HTML toggle) is true. -/
theorem resolveDoXHTML_imp_getD (doXML doHTML : Bool) (xhtmlOpt : Option Bool) :
    resolveDoXHTML doXML doHTML xhtmlOpt = true →
      xhtmlOpt.getD doHTML = true := by
  cases doXML <;> cases doHTML <;> rcases xhtmlOpt with _ | b <;>
    simp [resolveDoXHTML]

/-- C5: for every response, a `Content-Type` equal to the XHTML type is
decoded exactly when the XHTML toggle — defaulting to the HTML toggle's
value when unset — resolves to true with XML or HTML decoding available,
and is then decoded as HTML if the HTML toggle is on and as XML otherwise
(in particular decoding implies the resolved toggle is true); and whenever
none of the four auto-decode rules matches the response `Content-Type`
(including a missing `Content-Type`), the raw response is returned
unchanged. -/
theorem send_decode_dispatch (doJSON doXML doHTML : Bool)
    (xhtmlOpt : Option Bool) (ctype : Option String) :
    (sendDecode doJSON doXML doHTML xhtmlOpt (some MIME_XHTML) =
      (if xhtmlOpt.getD doHTML && (doXML || doHTML) then
        (if doHTML then .html else .xml) else .rawResponse))
    ∧ (specRuleMatches doJSON doXML doHTML xhtmlOpt ctype = false →
        sendDecode doJSON doXML doHTML xhtmlOpt ctype = .rawResponse) := by
  constructor
  · cases doJSON <;> cases doXML <;> cases doHTML <;>
      rcases xhtmlOpt with _ | b <;> first
        | decide
        | (cases b <;> decide)
  · intro h
    rcases ctype with _ | ct
    · rfl
    · simp only [sendDecode]
      split_ifs with h1 h2 h3 h4 h5
      · exfalso
        simp [specRuleMatches, h1.1, h1.2] at h
      · exfalso
        simp [specRuleMatches, h2.1, h2.2] at h
      · exfalso
        simp [specRuleMatches, h3.1, h3.2] at h
      · exfalso
        have := resolveDoXHTML_imp_getD doXML doHTML xhtmlOpt h4.1
        simp [specRuleMatches, this, h4.2] at h
      · exfalso
        have := resolveDoXHTML_imp_getD doXML doHTML xhtmlOpt h4.1
        simp [specRuleMatches, this, h4.2] at h
      · rfl

/-- C5 (witness): with only JSON decoding on (all defaults) the XHTML
equation applies concretely, and a `text/css` response matches no rule and
comes back raw. -/
theorem send_decode_dispatch_witness :
    sendDecode true false false none (some MIME_XHTML) = .rawResponse
    ∧ sendDecode true false true none (some "text/css") = .rawResponse
    ∧ specRuleMatches true false true none (some "text/css") = false := by
  refine ⟨?_, (send_decode_dispatch true false true none
    (some "text/css")).2 (by decide), by decide⟩
  have h := (send_decode_dispatch true false false none
    (some MIME_XHTML)).1
  simpa using h

/-! ## C6 — query composition -/

/-- C6: each key of the query source is processed in enumeration order:
an array value appends one entry per element (preserving element order), a
null value deletes the key's entries, and any other value sets a single
string-coerced entry; the concrete source
`{tags:['a','b'], removed:null, mode:2}` against an empty query yields
exactly `tags=a`, `tags=b` and `mode=2`. -/
theorem makeRequest_query_composition
    (ps : List (String × String)) (k : String) (es : List JVal)
    (v : JVal) (rest : Bag) :
    (applyQuery ps ((k, JVal.varr es) :: rest) =
      applyQuery (es.foldl (fun acc e => qsAppend acc k (jsToString e)) ps)
        rest)
    ∧ (applyQuery ps ((k, JVal.vnull) :: rest) =
        applyQuery (qsDelete ps k) rest)
    ∧ (isArr v = false → isNullV v = false →
        applyQuery ps ((k, v) :: rest) =
          applyQuery (qsSet ps k (jsToString v)) rest)
    ∧ applyQuery [] [("tags", JVal.varr [JVal.vstr "a", JVal.vstr "b"]),
        ("removed", JVal.vnull), ("mode", JVal.vnum 2)] =
      [("tags", "a"), ("tags", "b"), ("mode", "2")] := by
  refine ⟨rfl, rfl, ?_, rfl⟩
  intro ha hn
  cases v <;> simp_all [applyQuery, applyQueryItem, isArr, isNullV]

/-- C6 (witness): the single-key case `{mode: 2}` takes the set branch. -/
theorem makeRequest_query_composition_witness :
    applyQuery [] [("mode", JVal.vnum 2)] =
      applyQuery (qsSet [] "mode" (jsToString (JVal.vnum 2))) [] :=
  (makeRequest_query_composition [] "mode" [] (JVal.vnum 2) []).2.2.1
    rfl rfl

/-! ## C7 — caller-supplied Headers instance -/

/-- `setupBodySerialize` never changes the headers it is given. -/
theorem setupBodySerialize_headers_unchanged (data : JVal)
    (ct : Option String) (headers : HeadersModel) :
    ∀ out, setupBodySerialize data ct headers = .ok out →
      out.2 = headers := by
  intro out h
  cases data <;>
    simp only [setupBodySerialize, isObj] at h <;>
    (try split_ifs at h) <;>
    (try simp only [Except.ok.injEq] at h) <;>
    (cases h; rfl)

/-- C7 (counterexample): the claim says a caller-passed `Headers` instance
is used "with no further defaulting: ... no Content-Type derived by
sniffing the body value is added to it".  But when the instance lacks a
`Content-Type` and a body value is supplied, `setupBody` sniffs a type and
sets it on that very instance: here an empty `Headers` instance with the
string body `"hello"` comes back with `Content-Type: text/plain`, even
though a `contentType` option was configured (which, as claimed, is
ignored). -/
theorem setupBody_sniffs_into_headers_instance :
    setupBody { cfgDocsGET with contentType := some "application/json" }
        (JVal.vstr "hello") (.inst []) =
      .ok (.rawStr "hello", [("content-type", "text/plain")]) := by
  rfl

/-- C7 (amended): when the caller passes a complete `Headers` instance at
call time, `buildHeaders` returns it unmodified — no configured
content-type/accept-type option and no nested headers options are merged
in; and `setupBody` leaves it untouched whenever it already carries a
`Content-Type`; but when the instance has no `Content-Type` and a non-nil
body value is supplied, the `Content-Type` sniffed from the body value is
set on the instance. -/
theorem headers_instance_passthrough (cfg : MCConfig) (h : HeadersModel)
    (data : JVal) (ct t : String) :
    (buildHeaders cfg (.inst h) = h)
    ∧ (hGet h "Content-Type" = some ct →
        ∀ out, setupBody cfg data (.inst h) = .ok out → out.2 = h)
    ∧ (hGet h "Content-Type" = none → isNullV data = false →
        getMimeType data cfg.jsonObjects = .ok t → strTrim t ≠ "" →
        ∀ out, setupBody cfg data (.inst h) = .ok out →
          out.2 = hSet h "Content-Type" t) := by
  refine ⟨rfl, ?_, ?_⟩
  · intro hct out hsb
    simp only [setupBody, buildHeaders, hct] at hsb
    simp only [Option.isNone_some, Bool.false_and, Bool.false_eq_true,
      if_false] at hsb
    exact setupBodySerialize_headers_unchanged data (some ct) h out hsb
  · intro hct hnn hmt htr out hsb
    simp only [setupBody, buildHeaders, hct, hnn, hmt] at hsb
    simp only [Option.isNone_none, Bool.not_false, Bool.true_and,
      if_true] at hsb
    rw [if_pos htr] at hsb
    exact setupBodySerialize_headers_unchanged data (some t)
      (hSet h "Content-Type" t) out hsb

/-- C7 (witness for the amended theorem): concrete uses — passthrough of a
caller instance, and the sniffed `text/plain` set when the instance lacks
a `Content-Type` and a string body is supplied. -/
theorem headers_instance_passthrough_witness :
    buildHeaders cfgDocsGET (.inst [("accept", "text/html")])
      = [("accept", "text/html")]
    ∧ setupBody cfgDocsGET (JVal.vstr "hello") (.inst [])
      = .ok (.rawStr "hello", hSet [] "Content-Type" "text/plain") := by
  have hw0 := headers_instance_passthrough cfgDocsGET []
    (JVal.vstr "hello") "x" "text/plain"
  have h3 := hw0.2.2 rfl rfl rfl (by decide)
    (SBody.rawStr "hello", [("content-type", "text/plain")]) rfl
  refine ⟨(headers_instance_passthrough cfgDocsGET
    [("accept", "text/html")] (JVal.vstr "hello") "x" "y").1, ?_⟩
  rw [← h3]
  rfl

/-! ## C8 — explicit body on a body-forbidden verb -/

/-- C8: when the verb's rule forbids a request body
(`requestBody === false`), supplying an explicit non-null body makes
`makeRequest` fail with the body-forbidden error — the failure happens
while the request is being built, so nothing is dispatched (`send` only
calls `fetch` on a successfully built `Request`); and when no explicit
body is supplied, no body-forbidden error is ever raised for such a verb
(the argument bag is never implicitly used as a body). -/
theorem makeRequest_body_forbidden_error (cfg : MCConfig) (options : Bag)
    (rule : HttpRule) (v : JVal)
    (hm : cfg.httpMethods cfg.http = some rule)
    (hf : rule.requestBody = some false) :
    ((bagGet options "body" = some v ∧ isNullV v = false) →
      (makeRequest cfg options).1 = .error (.bodyForbidden cfg.http))
    ∧ ((bagGet options "body" = none ∨ bagGet options "body" = some .vnull) →
        ∀ m, (makeRequest cfg options).1 ≠ .error (.bodyForbidden m)) := by
  constructor
  · rintro ⟨hb, hnv⟩
    have heb : explicitBodyOf options = some v := by
      simp [explicitBodyOf, hb, hnv]
    simp [makeRequest, hm, heb, hf]
  · intro hb m hcontra
    have heb : explicitBodyOf options = none := by
      rcases hb with hb | hb <;> simp [explicitBodyOf, hb, isNullV]
    have hrt : reqBodyTruthyOf rule = false := by
      simp [reqBodyTruthyOf, hf]
    simp only [makeRequest, hm, heb, hrt, hf, Option.isSome_none,
      Bool.or_false, Bool.and_false, Bool.false_eq_true, if_false] at hcontra
    cases huv : useOptionsAsVarsOf options <;>
      simp only [huv, if_true, if_false, Bool.false_eq_true] at hcontra
    · rcases hres : (parseURL cfg.pathParts
          (asBag (bagGet options "vars")) false).1 with e | url
      · rw [hres] at hcontra
        simp only [] at hcontra
        obtain ⟨ns, rfl⟩ := parseURL_error_is_missing _ _ _ _ hres
        cases hcontra
      · rw [hres] at hcontra
        cases hcontra
    · rcases hres : (parseURL cfg.pathParts (some options) true).1
          with e | url
      · rw [hres] at hcontra
        obtain ⟨ns, rfl⟩ := parseURL_error_is_missing _ _ _ _ hres
        cases hcontra
      · rw [hres] at hcontra
        cases hcontra

/-- C8 (witness): `GET` with an explicit string body errors with the
body-forbidden failure; the same call without a body does not. -/
theorem makeRequest_body_forbidden_error_witness :
    (makeRequest cfgDocsGET
        [("body", JVal.vstr "oops"), ("docId", JVal.vstr "1")]).1
      = .error (.bodyForbidden "GET")
    ∧ ∀ m, (makeRequest cfgDocsGET [("docId", JVal.vstr "1")]).1
        ≠ .error (.bodyForbidden m) := by
  constructor
  · exact (makeRequest_body_forbidden_error cfgDocsGET
      [("body", JVal.vstr "oops"), ("docId", JVal.vstr "1")]
      ⟨some false, some true, true, true, true⟩ (JVal.vstr "oops")
      rfl rfl).1 ⟨rfl, rfl⟩
  · exact (makeRequest_body_forbidden_error cfgDocsGET
      [("docId", JVal.vstr "1")]
      ⟨some false, some true, true, true, true⟩ (JVal.vstr "oops")
      rfl rfl).2 (Or.inl rfl)

/-! ## C1 — argument-bag disambiguation -/

/-- `reqBodyTruthyOf` is true exactly for a mandatory request body. -/
theorem reqBodyTruthyOf_eq_true_iff (rule : HttpRule) :
    reqBodyTruthyOf rule = true ↔ rule.requestBody = some true := by
  rcases rule with ⟨rb, r2, r3, r4, r5⟩
  rcases rb with _ | b
  · simp [reqBodyTruthyOf]
  · cases b <;> simp [reqBodyTruthyOf]

/-- C1: for a successful `makeRequest` call whose argument bag contains
none of the reserved keys (`vars`/`body`/`query`/`headers`), writing
`final` for the post-placeholder-stripped bag (the second component of
`parseURL` on the bag):
if the verb rule forbids a request body (e.g. GET/HEAD) or makes it
optional (e.g. DELETE/OPTIONS), no body is created and the stripped bag is
the query source; if the rule requires a body (e.g. POST/PUT), the
stripped bag itself becomes the body-data passed to `setupBody` and no
implicit query is created. -/
theorem makeRequest_plain_bag_disambiguation (cfg : MCConfig)
    (options final : Bag) (rule : HttpRule) (req : BuiltRequest)
    (hm : cfg.httpMethods cfg.http = some rule)
    (hv : bagGet options "vars" = none)
    (hb : bagGet options "body" = none)
    (hq : bagGet options "query" = none)
    (hh : bagGet options "headers" = none)
    (hr : makeRequest cfg options = (.ok req, final)) :
    (parseURL cfg.pathParts (some options) true).2 = some final
    ∧ ((rule.requestBody = some false ∨ rule.requestBody = none) →
        req.bodyData = none ∧ req.url.search = applyQuery [] final)
    ∧ (rule.requestBody = some true →
        req.bodyData = some (.vobj final) ∧ req.url.search = []) := by
  have heb : explicitBodyOf options = none := by simp [explicitBodyOf, hb]
  have heq : explicitQueryOf options = none := by simp [explicitQueryOf, hq]
  have huv : useOptionsAsVarsOf options = true := by
    simp [useOptionsAsVarsOf, hv]
  have hcond : (decide (rule.requestBody = some false)
      && ((none : Option JVal).isSome || reqBodyTruthyOf rule)) = false := by
    rcases rule with ⟨rb, r2, r3, r4, r5⟩
    rcases rb with _ | b
    · simp [reqBodyTruthyOf]
    · cases b <;> simp [reqBodyTruthyOf]
  obtain ⟨bagOut, hsnd⟩ := parseURL_snd_some cfg.pathParts options true
  simp only [makeRequest, hm, heb, heq, huv, hh, toHeadersArg, if_true,
    hcond, Bool.false_eq_true, if_false, hsnd, Option.getD_some] at hr
  rcases hres : (parseURL cfg.pathParts (some options) true).1 with e | url
  · rw [hres] at hr
    exact absurd hr (by simp)
  · rw [hres] at hr
    have hsearch : url.search = [] := parseURL_ok_search_nil _ _ _ _ hres
    cases hrt : reqBodyTruthyOf rule
    · simp only [hrt, Bool.false_eq_true, if_false] at hr
      rw [Prod.mk.injEq] at hr
      obtain ⟨hr1, hr2⟩ := hr
      injection hr1 with hr1
      refine ⟨by rw [hsnd, hr2], fun _ => ⟨by rw [← hr1], ?_⟩, fun hrb => ?_⟩
      · rw [← hr1]
        show applyQuery url.search bagOut = applyQuery [] final
        rw [hsearch, hr2]
      · rw [(reqBodyTruthyOf_eq_true_iff rule).mpr hrb] at hrt
        cases hrt
    · rcases hsb : setupBody cfg (JVal.vobj bagOut)
          (.inst (buildHeaders cfg .noArg)) with e' | r
      · rw [hrt] at hr
        simp only [if_true] at hr
        rw [hsb] at hr
        exact absurd hr (by simp)
      · rw [hrt] at hr
        simp only [if_true] at hr
        rw [hsb] at hr
        rw [Prod.mk.injEq] at hr
        obtain ⟨hr1, hr2⟩ := hr
        injection hr1 with hr1
        refine ⟨by rw [hsnd, hr2], fun hrb => ?_,
          fun _ => ⟨by rw [← hr1, hr2], by rw [← hr1]; exact hsearch⟩⟩
        rcases hrb with hrb | hrb <;>
          rw [(reqBodyTruthyOf_eq_true_iff rule).mp hrt] at hrb <;>
          cases hrb

/-- C1 (witness): `GET /docs/:docId` with the bag
`{docId:'123', extra:'x'}` — the stripped bag `{extra:'x'}` becomes the
query source and no body is created. -/
theorem makeRequest_plain_bag_disambiguation_witness :
    (parseURL cfgDocsGET.pathParts
        (some [("docId", JVal.vstr "123"), ("extra", JVal.vstr "x")]) true).2
      = some [("extra", JVal.vstr "x")]
    ∧ BuiltRequest.bodyData
        { url := { path := "/docs/123", search := [("extra", "x")] },
          method := "GET", headers := [], bodyData := none, body := none }
      = none
    ∧ URLModel.search (BuiltRequest.url
        { url := { path := "/docs/123", search := [("extra", "x")] },
          method := "GET", headers := [], bodyData := none, body := none })
      = applyQuery [] [("extra", JVal.vstr "x")] := by
  have h := makeRequest_plain_bag_disambiguation cfgDocsGET
    [("docId", JVal.vstr "123"), ("extra", JVal.vstr "x")]
    [("extra", JVal.vstr "x")]
    ⟨some false, some true, true, true, true⟩
    { url := { path := "/docs/123", search := [("extra", "x")] },
      method := "GET", headers := [], bodyData := none, body := none }
    rfl rfl rfl rfl rfl rfl
  exact ⟨h.1, (h.2.1 (Or.inl rfl)).1, (h.2.1 (Or.inl rfl)).2⟩

/-! ## C3 — the `removePlaceholdersFromData` option is ignored -/

/-- C3 (code evaluated at the failing input): the
`removePlaceholdersFromData` getter documents that `makeRequest` uses the
option as the `removeUsed` argument of `parseURL`, with default `true`
(src/lib/methodcall.js lines 429-444).  But `makeRequest` line 694 passes
`urlData === options` instead and never consults the option: with the
option explicitly set to `false` on a `GET /docs/:docId` call and the bag
`{docId:'123', extra:'x'}`, the getter resolves to `false`, yet the used
placeholder key `docId` is still stripped from the caller's bag. -/
theorem makeRequest_strips_despite_option :
    getRemovePlaceholdersFromData cfgDocsGETNoStrip = false
    ∧ (makeRequest cfgDocsGETNoStrip
        [("docId", JVal.vstr "123"), ("extra", JVal.vstr "x")]).2
      = [("extra", JVal.vstr "x")]
    ∧ bagGet (makeRequest cfgDocsGETNoStrip
        [("docId", JVal.vstr "123"), ("extra", JVal.vstr "x")]).2 "docId"
      = none := by
  exact ⟨rfl, rfl, rfl⟩

/-! ## C9 — the Registry back-reference -/

/-- C9 (counterexample): the claim says re-registering an
already-registered Method Call is an error and the back-reference never
changes.  But `setWS` performs no such check: on a Method Call whose `ws`
is already set (to instance 1), a second `setWS` with another valid
`Webservice` (instance 2) succeeds and overwrites the back-reference. -/
theorem setWS_reregister_not_an_error :
    setWS { ws := some 1 } (.ws 2) = .ok { ws := some 2 }
    ∧ ({ ws := some 2 } : MCState) ≠ { ws := some 1 } := by
  exact ⟨rfl, by decide⟩

/-- C9 (amended): `setWS` validates only that its argument is a
`Webservice` instance — a non-instance is rejected with a `TypeError`;
any valid instance is assigned to `ws` unconditionally, regardless of the
current state, so a second registration succeeds and overwrites the
back-reference. -/
theorem setWS_overwrites (st : MCState) (arg : WSArg) :
    (arg = .notWS → setWS st arg = .error "Invalid Webservice instance")
    ∧ (∀ i, arg = .ws i → setWS st arg = .ok { ws := some i }) := by
  constructor
  · rintro rfl
    rfl
  · rintro i rfl
    rfl

/-- C9 (witness for the amended theorem): both branches at concrete
arguments, starting from an already-registered state. -/
theorem setWS_overwrites_witness :
    setWS { ws := some 5 } .notWS = .error "Invalid Webservice instance"
    ∧ setWS { ws := some 5 } (.ws 7) = .ok { ws := some 7 } :=
  ⟨(setWS_overwrites { ws := some 5 } .notWS).1 rfl,
   (setWS_overwrites { ws := some 5 } (.ws 7)).2 7 rfl⟩

end LumWebService
